import Mathlib

/-!
# Verification of the Writing3D core (pyw3d excerpt)

Shallow embedding of the W3D link / timeline / spatial-trigger code under
`src/pyw3d`, together with proofs about the properties stated in the
specification.  Machine floats (start times, positions) are modelled as
rationals; W3D actions are opaque atoms (`Act`), since the `W3DAction`
class lives outside the excerpt and no property inspects an action's
contents.
-/
namespace PyW3D

/-- Opaque action atoms.  `W3DAction.toXML`/`fromXML` are external to the
excerpt; an action's serialized form is identified with the action itself. -/
abbrev Act := Nat

/-- Start times / coordinates (Python floats) modelled as rationals. -/
abbrev Time := ℚ

/-- The error classes raised by the embedded code (`pyw3d.errors`):
`BadW3DXML`, `ValidationError` (validator failures), `EBKAC`
(precondition errors), `ConsistencyError`. -/
inductive W3DError where
  | badW3DXML (msg : String)
  | validationError (msg : String)
  | ebkac (msg : String)
  | consistencyError (msg : String)
deriving DecidableEq, Repr

/-! ## Spatial region triggers (`activators/triggers/object_triggers.py`)

`BlenderObjectPositionTrigger.generate_detection_logic` emits the Python
text of a `detect_event` function.  We embed the logic of the emitted
text.  A position is a function `Fin 3 → ℚ`; `corners[i]` in the emitted
text is the pair `(corner1[i], corner2[i])` produced by `zip`.

The emitted per-object test reads

    (position[i] < min(corners[i]) or position[i] > max(corners[i]))

where the name `i` is *not bound anywhere in the emitted function* (there
is no `for i in range(3)` and no enclosing binding).  Executing the text
would raise `NameError`.  To analyse the expression at all we model the
free name `i` as an ambient parameter supplied by the environment; note
that whatever single value it would denote, the test inspects exactly one
axis. -/
/-- Positions / corners as coordinate triples. -/
abbrev Vec3 := Fin 3 → ℚ

/-- Build a coordinate triple. -/
def vec3 (a b c : ℚ) : Vec3 := fun i =>
  if i.val = 0 then a else if i.val = 1 then b else c

/-- The single-axis test `position[i] < min(corners[i]) or
position[i] > max(corners[i])` from the emitted text, at axis `i`. -/
def axisExceeds (c1 c2 p : Vec3) (i : Fin 3) : Bool :=
  decide (p i < min (c1 i) (c2 i)) || decide (p i > max (c1 i) (c2 i))

/-- The per-object condition folded into `in_region` by the emitted loop:
the axis test, negated when `box["direction"] == "Inside"`.  The axis `i`
is the ambient value of the emitted text's unbound name `i`. -/
def objectCond (direction : String) (c1 c2 p : Vec3) (i : Fin 3) : Bool :=
  if direction == "Inside" then !(axisExceeds c1 c2 p i) else axisExceeds c1 c2 p i

/-- The `in_region` value computed by the emitted `detect_event` after its
loop over `all_objects`: initial value `not detect_any`, combined with the
per-object condition with `or` when `detect_any` and `and` otherwise. -/
def detectInRegion (detect_any : Bool) (direction : String) (c1 c2 : Vec3)
    (objs : List Vec3) (i : Fin 3) : Bool :=
  objs.foldl
    (fun acc p =>
      if detect_any then acc || objectCond direction c1 c2 p i
      else acc && objectCond direction c1 c2 p i)
    (!detect_any)

/-- Containment as the specification words it (§4.3): outside iff some
axis falls below the per-axis minimum or above the per-axis maximum. -/
def specOutside (c1 c2 p : Vec3) : Bool :=
  decide (∃ i : Fin 3, p i < min (c1 i) (c2 i) ∨ p i > max (c1 i) (c2 i))

/-- Specification containment predicate: `Inside` means not outside,
`Outside` means outside. -/
def specContained (direction : String) (c1 c2 p : Vec3) : Bool :=
  if direction == "Inside" then !(specOutside c1 c2 p) else specOutside c1 c2 p

/-! ## Trigger state holder and status transition -/

/-- Modelled from the spec: the state holder (`enabled` and `status`
game properties) is created by the `BlenderTrigger` base class, which is
outside the excerpt; §4.2 step 1 allocates a state holder with exactly
the fields `enabled` (bool) and `status`, where `status` is a string
game property holding `"Stop"` or `"Start"`. -/
structure TriggerStateHolder where
  enabled : Bool
  status : String
deriving DecidableEq, Repr

/-- The status update performed by the tail of the emitted `detect_event`
(object_triggers.py lines 115–118):

    if (in_region and own['enabled'] and own['status'] == 'Stop'):
        own['status'] = 'Start'
-/
def detectStatusUpdate (in_region enabled : Bool) (status : String) : String :=
  if in_region && enabled && (status == "Stop") then "Start" else status

/-- One evaluation of the emitted `detect_event` tail on a state holder:
only the `status` field is ever written. -/
def holderStep (in_region : Bool) (h : TriggerStateHolder) : TriggerStateHolder :=
  { h with status := detectStatusUpdate in_region h.enabled h.status }

/-- The spec's box `(0,0,0)`. -/
def boxLo : Vec3 := vec3 0 0 0

/-- The spec's box corner `(10,10,10)`. -/
def boxHi : Vec3 := vec3 10 10 10

/-- Test point `(5,5,5)` (inside the spec box). -/
def inPt : Vec3 := vec3 5 5 5

/-- Test point `(11,0,0)` (outside the spec box on axis 0). -/
def outPt : Vec3 := vec3 11 0 0

/-- Test point `(0,11,0)` (outside the spec box on axis 1). -/
def outPt2 : Vec3 := vec3 0 11 0

/-! ## Clickable links (`objects_w3dlink.py`)

Document model for the `LinkRoot` subtree, shaped by what
`W3DLink.toXML`/`fromXML` write and read.  An attribute that `fromXML`
parses with `int(...)` is modelled as `Option (Option Int)`: `none` for a
missing attribute (Python `KeyError`), `some none` for a non-numeric
value (`ValueError`), `some (some n)` for a value parsing to `n`.
`text2bool` values are modelled as the parsed `Bool`.  The `Any`
subelement written for negative click counts carries no data and is not
read back (`fromXML` only looks for `NumClicks`), so a `Clicks` node is
just an optional `NumClicks` child. -/
/-- A `NumClicks` node: the `num_clicks` and `reset` attributes. -/
structure NumClicksNode where
  num_clicks : Option (Option Int)
  reset : Option Bool
deriving DecidableEq, Repr

/-- A `Clicks` node: at most one `NumClicks` child (`find` result). -/
structure ClicksNode where
  numClicks : Option NumClicksNode
deriving DecidableEq, Repr

/-- An `Actions` node: an optional `Clicks` child and the remaining
(non-`Clicks`) children in document order, each a serialized action. -/
structure ActionsNode where
  clicksChild : Option ClicksNode
  actions : List Act
deriving DecidableEq, Repr

/-- A `Link` node.  `Enabled`/`RemainEnabled` children are read through
`find_xml_text`/`text2bool` (external helpers), modelled as parsed
booleans; the color children are optional. -/
structure LinkNode where
  enabled : Bool
  remain_enabled : Bool
  enabled_color : Option (Int × Int × Int)
  selected_color : Option (Int × Int × Int)
  actionsNodes : List ActionsNode
deriving DecidableEq, Repr

/-- A `LinkRoot` node: at most one `Link` child (`find` result). -/
structure LinkRoot where
  link : Option LinkNode
deriving DecidableEq, Repr

/-- The `W3DLink` feature: defaults from `W3DLink.default_arguments`.
`actions` is the `defaultdict(list)` mapping click counts to action
lists, modelled as an association list in key-creation order (Python
dicts preserve insertion order). -/
structure W3DLink where
  enabled : Bool := true
  remain_enabled : Bool := true
  enabled_color : Int × Int × Int := (0, 128, 255)
  selected_color : Int × Int × Int := (255, 0, 0)
  actions : List (Int × List Act) := []
  reset : Int := -1
  num_clicks : Int := 0
deriving DecidableEq, Repr

/-- `link["actions"][k].append(a)` on the `defaultdict(list)`: append `a`
to the list at key `k`, creating the entry at the end when absent. -/
def addAction (m : List (Int × List Act)) (k : Int) (a : Act) :
    List (Int × List Act) :=
  match m with
  | [] => [(k, [a])]
  | (k', l) :: rest =>
    if k' = k then (k', l ++ [a]) :: rest else (k', l) :: addAction rest k a

/-- Processing of one `Actions` node's `Clicks` child by `W3DLink.fromXML`
(lines 132–153): yields the click-count key for this node and the updated
`reset` value, or `BadW3DXML` when `num_clicks` is missing/non-numeric.
The `reset` attribute's `KeyError` is swallowed (`pass`). -/
def clicksKeyAndReset (an : ActionsNode) (curReset : Int) :
    Except W3DError (Int × Int) :=
  match an.clicksChild with
  | none => .ok (-1, curReset)
  | some cn =>
    match cn.numClicks with
    | none => .ok (-1, curReset)
    | some ncn =>
      match ncn.num_clicks with
      | none => .error (.badW3DXML
          "num_clicks attribute not set to an integer inNumClicks node")
      | some none => .error (.badW3DXML
          "num_clicks attribute not set to an integer inNumClicks node")
      | some (some n) =>
        match ncn.reset with
        | none => .ok (n, curReset)
        | some b =>
          if b then
            if n < curReset ∨ curReset = -1 then .ok (n, n) else .ok (n, curReset)
          else .ok (n, curReset)

/-- Processing of one `Actions` node by `W3DLink.fromXML`: resolve the
click key and reset update, then append every non-`Clicks` child under
that key. -/
def processActionsNode (l : W3DLink) (an : ActionsNode) :
    Except W3DError W3DLink :=
  match clicksKeyAndReset an l.reset with
  | .error e => .error e
  | .ok (k, r) =>
    .ok { l with reset := r,
                 actions := an.actions.foldl (fun m a => addAction m k a) l.actions }

/-- `W3DLink.fromXML` (lines 112–159): fail without a `Link` child, read
the flags and colors, then fold over the `Actions` nodes. -/
def W3DLink.fromXML (root : LinkRoot) : Except W3DError W3DLink :=
  match root.link with
  | none => .error (.badW3DXML "LinkRoot element has no Link subelement")
  | some ln =>
    let l0 : W3DLink :=
      { enabled := ln.enabled
        remain_enabled := ln.remain_enabled
        enabled_color := ln.enabled_color.getD (0, 128, 255)
        selected_color := ln.selected_color.getD (255, 0, 0) }
    ln.actionsNodes.foldlM processActionsNode l0

/-- The `Clicks` node written by `W3DLink.toXML` for click count `k`:
an `Any` child (no `NumClicks`) when `k < 0`, otherwise a `NumClicks`
child with `num_clicks = k` and `reset = (link.reset == k)`. -/
def clicksNodeFor (reset k : Int) : ClicksNode :=
  if k < 0 then { numClicks := none }
  else { numClicks := some { num_clicks := some (some k),
                             reset := some (decide (reset = k)) } }

/-- The `Actions` nodes written by `W3DLink.toXML`: one per action, in
key-creation order then list order, each holding that single action and
a `Clicks` child. -/
def linkActionsNodesFor (reset : Int) (actions : List (Int × List Act)) :
    List ActionsNode :=
  (actions.map (fun ka =>
    ka.2.map (fun a =>
      ({ clicksChild := some (clicksNodeFor reset ka.1),
         actions := [a] } : ActionsNode)))).flatten

/-- `W3DLink.toXML` (lines 76–110). -/
def W3DLink.toXML (l : W3DLink) : LinkRoot :=
  { link := some
      { enabled := l.enabled
        remain_enabled := l.remain_enabled
        enabled_color := some l.enabled_color
        selected_color := some l.selected_color
        actionsNodes := linkActionsNodesFor l.reset l.actions } }

/-- Does the `Clicks` data of an `Actions` node parse without
`BadW3DXML`?  (Beyond parsing, a click count is required to be a
non-negative integer, as the data model specifies for click counts.) -/
def nodeParses (an : ActionsNode) : Bool :=
  match an.clicksChild with
  | none => true
  | some cn =>
    match cn.numClicks with
    | none => true
    | some ncn =>
      match ncn.num_clicks with
      | some (some n) => decide (0 ≤ n)
      | _ => false

/-- The reset-tagged click count of an `Actions` node, when its
`NumClicks` child parses and carries `reset=true`. -/
def nodeTaggedCount (an : ActionsNode) : Option Int :=
  match an.clicksChild with
  | none => none
  | some cn =>
    match cn.numClicks with
    | none => none
    | some ncn =>
      match ncn.num_clicks, ncn.reset with
      | some (some n), some true => some n
      | _, _ => none

/-- All reset-tagged click counts of a `Link` node, in document order. -/
def taggedCounts (ln : LinkNode) : List Int :=
  ln.actionsNodes.filterMap nodeTaggedCount

/-- The reset update performed per reset-tagged count `n`
(`if num_clicks < link["reset"] or link["reset"] == -1`). -/
def resetUpdate (cur n : Int) : Int :=
  if n < cur ∨ cur = -1 then n else cur

/-- The reset value after processing one `Actions` node. -/
def resetAfter (an : ActionsNode) (cur : Int) : Int :=
  match nodeTaggedCount an with
  | none => cur
  | some n => resetUpdate cur n

/-- The click-count key an `Actions` node's actions are filed under
(when the node parses): the parsed `num_clicks`, or the sentinel `-1`. -/
def nodeKey (an : ActionsNode) : Int :=
  match an.clicksChild with
  | none => -1
  | some cn =>
    match cn.numClicks with
    | none => -1
    | some ncn =>
      match ncn.num_clicks with
      | some (some n) => n
      | _ => -1

/-- The pure effect of `processActionsNode` on a parsing node. -/
def processNodeP (l : W3DLink) (an : ActionsNode) : W3DLink :=
  { l with
      reset := resetAfter an l.reset
      actions := an.actions.foldl (fun m a => addAction m (nodeKey an) a) l.actions }

/-- The spec's reset-inference example: actions tagged `reset=true` at
click counts 5 and 3. -/
def c3ExampleLink : LinkNode :=
  { enabled := true
    remain_enabled := true
    enabled_color := none
    selected_color := none
    actionsNodes :=
      [ { clicksChild := some { numClicks := some { num_clicks := some (some 5),
                                                    reset := some true } },
          actions := [1] },
        { clicksChild := some { numClicks := some { num_clicks := some (some 3),
                                                    reset := some true } },
          actions := [2] } ] }

/-! ## Timelines (`timeline.py`) -/
/-- The `IsNumeric` validator with an optional minimum, as used in
`W3DTimeline.argument_validators` (`IsNumeric(min_value=0)` on the start
time). -/
structure IsNumericValidator where
  min_value : Option ℚ := none
deriving DecidableEq, Repr

/-- Does a value pass the numeric validator?  (`pyw3d.validators` is
outside the excerpt; a numeric-typed value passes iff it clears the
declared minimum.) -/
def IsNumericValidator.check (v : IsNumericValidator) (x : ℚ) : Bool :=
  match v.min_value with
  | none => true
  | some m => decide (m ≤ x)

/-- The start-time validator declared in `W3DTimeline.argument_validators`. -/
def startTimeValidator : IsNumericValidator := { min_value := some 0 }

/-- Modelled from the spec: the `SortedList` container (`pyw3d.structs`)
is outside the excerpt.  Per §4.1 its insert "adds a pair maintaining the
sort invariant", and §3 requires iteration non-decreasing in start time
with ties in insertion order, so a new pair is placed after every entry
whose time is `≤` its own (before the first strictly later entry). -/
def insortPair (l : List (Time × Act)) (p : Time × Act) : List (Time × Act) :=
  match l with
  | [] => [p]
  | q :: rest => if p.1 < q.1 then p :: q :: rest else q :: insortPair rest p

/-- Folding the sorted insert over an insertion sequence, as
`W3DTimeline.__init__` (over the initial `actions` value) and
`W3DTimeline.fromXML` (over the document's timed actions) both do. -/
def buildActions (seq : List (Time × Act)) : List (Time × Act) :=
  seq.foldl insortPair []

/-- The `W3DTimeline` feature: name, `start_immediately` (default
`True`), and the sorted `(start time, action)` collection. -/
structure W3DTimeline where
  name : Option String := none
  start_immediately : Bool := true
  actions : List (Time × Act) := []
deriving DecidableEq, Repr

/-- Modelled from the spec: `W3DFeature` validation (`pyw3d.features`)
is outside the excerpt; per §4.1/§7 a pair whose start time fails the
declared `IsNumeric(min_value=0)` validator is rejected at insertion
with a `ValidationError`. -/
def W3DTimeline.insertAction (tl : W3DTimeline) (p : Time × Act) :
    Except W3DError W3DTimeline :=
  if startTimeValidator.check p.1 then
    .ok { tl with actions := insortPair tl.actions p }
  else
    .error (.validationError "Start time in seconds must be no less than 0")

/-- A `TimedActions` node: the `seconds-time` attribute (`none` missing,
`some none` non-numeric, `some (some t)` parsed) and the serialized
actions below it. -/
structure TimedActionsNode where
  seconds_time : Option (Option Time)
  children : List Act
deriving DecidableEq, Repr

/-- A `Timeline` node: optional `name` and `start-immediately`
attributes, and the `TimedActions` children in document order. -/
structure TimelineNode where
  name : Option String
  start_immediately : Option Bool
  timedActions : List TimedActionsNode
deriving DecidableEq, Repr

/-- `W3DTimeline.toXML` (lines 65–83): a missing name raises
`ConsistencyError`; otherwise one `TimedActions` node is written per
`(time, action)` pair, in iteration order, with the time as its
`seconds-time` attribute. -/
def W3DTimeline.toXML (tl : W3DTimeline) : Except W3DError TimelineNode :=
  match tl.name with
  | none => .error (.consistencyError "W3DTimeline must specify a name")
  | some nm =>
    .ok { name := some nm
          start_immediately := some tl.start_immediately
          timedActions := tl.actions.map (fun p =>
            { seconds_time := some (some p.1), children := [p.2] }) }

/-- Processing of one `TimedActions` node by `W3DTimeline.fromXML`
(lines 100–109): a missing or non-numeric `seconds-time` attribute
raises `BadW3DXML`; otherwise each child is added with that start
time. -/
def processTimedActions (tl : W3DTimeline) (ta : TimedActionsNode) :
    Except W3DError W3DTimeline :=
  match ta.seconds_time with
  | none => .error (.badW3DXML
      "TimedActions node must specify numeric seconds-time attribute")
  | some none => .error (.badW3DXML
      "TimedActions node must specify numeric seconds-time attribute")
  | some (some t) =>
    ta.children.foldlM (fun tl' a => tl'.insertAction (t, a)) tl

/-- `W3DTimeline.fromXML` (lines 85–111): a missing `name` attribute
raises `BadW3DXML`; `start-immediately` defaults to the constructor
default `True`; then the `TimedActions` nodes are processed in document
order. -/
def W3DTimeline.fromXML (root : TimelineNode) : Except W3DError W3DTimeline :=
  match root.name with
  | none => .error (.badW3DXML "Timeline node must specify name attribute")
  | some nm =>
    root.timedActions.foldlM processTimedActions
      { name := some nm
        start_immediately := root.start_immediately.getD true
        actions := [] }

/-- Does a `TimedActions` node's parsed time (if any) clear the
validator? -/
def taTimesOk (ta : TimedActionsNode) : Bool :=
  match ta.seconds_time with
  | some (some t) => decide (0 ≤ t)
  | _ => true

/-- Is a `TimedActions` node's `seconds-time` missing or non-numeric? -/
def taDefective (ta : TimedActionsNode) : Bool :=
  match ta.seconds_time with
  | some (some _) => false
  | _ => true

/-- Keys non-decreasing along the list. -/
def timeSorted (l : List (Time × Act)) : Prop :=
  l.Pairwise (fun p q => p.1 ≤ q.1)

/-! ## Blender activators and the ordered compile protocol -/
/-- Modelled from the spec: the activator classes (`pyw3d.activators`:
`BlenderTimeline`, `BlenderClickTrigger`, the `BlenderTrigger` base) are
outside the excerpt.  Per §4.1/§4.2 an activator compiles to a graph of
nodes (an empty timeline gives a no-op graph), and the `blend()` methods
in the excerpt call `create_blender_objects()` on the fresh activator,
after which its logic bricks exist. -/
structure BlenderActivator where
  nodes : List (Time × Act)
  objectsCreated : Bool
deriving DecidableEq, Repr

/-- Modelled from the spec: linking an activator's logic bricks succeeds
once its objects/bricks have been created (§4.2: build nodes before
linking them). -/
def BlenderActivator.link_logic_bricks (a : BlenderActivator) :
    Except W3DError Unit :=
  if a.objectsCreated then .ok ()
  else .error (.ebkac "logic bricks must be created before they can be linked")

/-- Modelled from the spec: emitting the generated logic text succeeds
once the activator's objects have been created. -/
def BlenderActivator.write_python_logic (a : BlenderActivator) :
    Except W3DError Unit :=
  if a.objectsCreated then .ok ()
  else .error (.ebkac "objects must be created before logic can be written")

/-- Runtime view of a `W3DTimeline` Python object: the `activator`
attribute does not exist until `blend()` assigns it. -/
structure W3DTimelineRT where
  feature : W3DTimeline
  activator : Option BlenderActivator := none
deriving DecidableEq, Repr

/-- `W3DTimeline.blend` (timeline.py lines 113–119): construct the
activator over the timeline's actions and create its objects. -/
def W3DTimelineRT.blend (s : W3DTimelineRT) : W3DTimelineRT :=
  { s with activator := some { nodes := s.feature.actions, objectsCreated := true } }

/-- `W3DTimeline.link_blender_logic` (lines 121–127): the
`AttributeError` on a missing `activator` is re-raised as `EBKAC`. -/
def W3DTimelineRT.link_blender_logic (s : W3DTimelineRT) : Except W3DError Unit :=
  match s.activator with
  | none => .error (.ebkac "blend() must be called before link_blender_logic()")
  | some a => a.link_logic_bricks

/-- `W3DTimeline.write_blender_logic` (lines 129–138). -/
def W3DTimelineRT.write_blender_logic (s : W3DTimelineRT) : Except W3DError Unit :=
  match s.activator with
  | none => .error (.ebkac "blend() must be called before write_blender_logic()")
  | some a => a.write_python_logic

/-- Runtime view of a `W3DLink` Python object. -/
structure W3DLinkRT where
  feature : W3DLink
  activator : Option BlenderActivator := none
deriving DecidableEq, Repr

/-- `W3DLink.blend` (objects_w3dlink.py lines 161–175). -/
def W3DLinkRT.blend (s : W3DLinkRT) : W3DLinkRT :=
  { s with activator := some { nodes := [], objectsCreated := true } }

/-- `W3DLink.link_blender_logic` (lines 177–183). -/
def W3DLinkRT.link_blender_logic (s : W3DLinkRT) : Except W3DError Unit :=
  match s.activator with
  | none => .error (.ebkac "blend() must be called before link_blender_logic()")
  | some a => a.link_logic_bricks

/-- `W3DLink.write_blender_logic` (lines 185–191). -/
def W3DLinkRT.write_blender_logic (s : W3DLinkRT) : Except W3DError Unit :=
  match s.activator with
  | none => .error (.ebkac "blend() must be called before write_blender_logic()")
  | some a => a.write_python_logic

/-- Which of the `enable_sensor` / `detect_controller` attributes of a
`BlenderObjectPositionTrigger` have been assigned by the create steps. -/
structure TriggerBricks where
  enable_sensor : Bool := false
  detect_controller : Bool := false
deriving DecidableEq, Repr

/-- `create_enabled_sensor` (object_triggers.py lines 46–64): assigns
the `enable_sensor` attribute. -/
def createEnabledSensor (s : TriggerBricks) : TriggerBricks :=
  { s with enable_sensor := true }

/-- `create_detection_controller` (lines 66–80): assigns the
`detect_controller` attribute. -/
def createDetectionController (s : TriggerBricks) : TriggerBricks :=
  { s with detect_controller := true }

/-- `create_blender_objects` (lines 123–126): sensor then controller. -/
def createBlenderObjects (s : TriggerBricks) : TriggerBricks :=
  createDetectionController (createEnabledSensor s)

/-- `link_detection_bricks` (lines 82–92): the `AttributeError` from
either missing attribute is re-raised as `EBKAC`. -/
def linkDetectionBricks (s : TriggerBricks) : Except W3DError Unit :=
  if s.detect_controller && s.enable_sensor then .ok ()
  else .error (.ebkac
    "Detection sensor and controller must be created before they can be linked")

/-! ## Round-trip machinery for the click-action mapping -/
/-- The key list of the click-action mapping, in creation order. -/
def mapKeys (m : List (Int × List Act)) : List Int := m.map Prod.fst

/-- Does an `Actions` node both parse and carry at least one action?
(The shape `W3DLink.toXML` always produces.) -/
def nodeWF (an : ActionsNode) : Bool := nodeParses an && !an.actions.isEmpty

/-- Invariants of every link state reachable by `fromXML` from the fresh
link: distinct mapping keys, non-empty action lists, keys either the
sentinel or non-negative, and a non-default reset present among the
keys. -/
structure LinkInv (s : W3DLink) : Prop where
  nodup : (mapKeys s.actions).Nodup
  vals : ∀ p ∈ s.actions, p.2 ≠ ([] : List Act)
  keys : ∀ p ∈ s.actions, p.1 = -1 ∨ 0 ≤ p.1
  resetOK : s.reset = -1 ∨ (0 ≤ s.reset ∧ s.reset ∈ mapKeys s.actions)

/-- Is a `TimedActions` node fully well-formed: its time parses and
clears the validator? -/
def taWF (ta : TimedActionsNode) : Bool :=
  match ta.seconds_time with
  | some (some t) => decide (0 ≤ t)
  | _ => false

/-- The parsed time of a `TimedActions` node (default 0). -/
def taTime (ta : TimedActionsNode) : Time :=
  match ta.seconds_time with
  | some (some t) => t
  | _ => 0

/-- The flattened `(time, action)` pairs of a timeline document, in
document order. -/
def timelinePairs (tas : List TimedActionsNode) : List (Time × Act) :=
  (tas.map (fun ta => ta.children.map (fun a => (taTime ta, a)))).flatten

/-- A concrete timeline document for the round-trip witness. -/
def c6TimelineDoc : TimelineNode :=
  { name := some "tl"
    start_immediately := some false
    timedActions :=
      [ { seconds_time := some (some 2), children := [4] },
        { seconds_time := some (some 1), children := [5] } ] }

/-- C1: the claim says the emitted detect condition implements the spec's
containment predicate (outside iff some axis is below `lo` or above `hi`).
It does not: the emitted per-object test inspects a single axis, named by
the unbound variable `i` (a `NameError` at runtime).  Whatever axis the
environment could supply for `i`, the test disagrees with the spec's
containment: with box `(0,0,0)-(10,10,10)`, mode `Inside`, the point
`(11,0,0)` is not contained per the spec, yet the emitted detect (one
object, `detect_any` true) evaluates true under axis 1 or 2; the point
`(0,11,0)` is not contained, yet the detect evaluates true under axis 0. -/
theorem claim_C1_code_bug :
    specContained "Inside" boxLo boxHi inPt = true ∧
    specContained "Inside" boxLo boxHi outPt = false ∧
    detectInRegion true "Inside" boxLo boxHi [outPt] 1 = true ∧
    detectInRegion true "Inside" boxLo boxHi [outPt] 2 = true ∧
    specContained "Inside" boxLo boxHi outPt2 = false ∧
    detectInRegion true "Inside" boxLo boxHi [outPt2] 0 = true := by
  decide

/-- C2: with two tracked objects, one inside (`(5,5,5)`) and one outside
(`(11,0,0)`), mode `Inside` and `detect_any = False`, the claim (and the
spec's aggregation test) require detect = false; the emitted code (which
would in fact raise `NameError` on its unbound axis name `i`; modelled
with the ambient axis 1) yields true.  The empty-set clauses of the claim
do hold of the emitted code: with no tracked objects the loop never runs
and `in_region` keeps its initial value `not detect_any`. -/
theorem claim_C2_code_bug :
    specContained "Inside" boxLo boxHi inPt = true ∧
    specContained "Inside" boxLo boxHi outPt = false ∧
    detectInRegion false "Inside" boxLo boxHi [inPt, outPt] 1 = true ∧
    (∀ i : Fin 3, detectInRegion false "Inside" boxLo boxHi [] i = true) ∧
    (∀ i : Fin 3, detectInRegion true "Inside" boxLo boxHi [] i = false) := by
  decide

/-- C5: the state holder has exactly the fields `enabled` and `status`
(captured by extensionality); the emitted status update transitions only
`Stop → Start`, and only when the detect value and `enabled` are both
true and the status is currently `Stop`; it writes no value other than
`"Start"`, never touches `enabled`, and never moves `Start` back. -/
theorem claim_C5_state_holder :
    (∀ h1 h2 : TriggerStateHolder,
        h1 = h2 ↔ (h1.enabled = h2.enabled ∧ h1.status = h2.status)) ∧
    (∀ d e st, detectStatusUpdate d e st = st ∨
        (d = true ∧ e = true ∧ st = "Stop" ∧ detectStatusUpdate d e st = "Start")) ∧
    (∀ d e, detectStatusUpdate d e "Start" = "Start") ∧
    (∀ r h, (holderStep r h).enabled = h.enabled ∧
        ((holderStep r h).status = h.status ∨ (holderStep r h).status = "Start")) := by
  refine ⟨?_, ?_, ?_, ?_⟩
  · intro h1 h2
    constructor
    · rintro rfl; exact ⟨rfl, rfl⟩
    · rintro ⟨he, hs⟩; cases h1; cases h2; simp_all
  · intro d e st
    unfold detectStatusUpdate
    by_cases h : (d && e && (st == "Stop")) = true
    · right
      simp only [Bool.and_eq_true, beq_iff_eq] at h
      simp [h.1.1, h.1.2, h.2]
    · left; simp [h]
  · intro d e; simp [detectStatusUpdate]
  · intro r h
    refine ⟨rfl, ?_⟩
    unfold holderStep detectStatusUpdate
    by_cases hc : (r && h.enabled && (h.status == "Stop")) = true
    · right; simp [hc]
    · left; simp [hc]

theorem clicksKeyAndReset_of_parses (an : ActionsNode) (cur : Int)
    (h : nodeParses an = true) :
    ∃ k, clicksKeyAndReset an cur = .ok (k, resetAfter an cur) := by
  cases han : an.clicksChild with
  | none =>
    exact ⟨-1, by simp [clicksKeyAndReset, resetAfter, nodeTaggedCount, han]⟩
  | some cn =>
    cases hcn : cn.numClicks with
    | none =>
      exact ⟨-1, by simp [clicksKeyAndReset, resetAfter, nodeTaggedCount, han, hcn]⟩
    | some ncn =>
      cases hnum : ncn.num_clicks with
      | none => exfalso; simp [nodeParses, han, hcn, hnum] at h
      | some v =>
        cases v with
        | none => exfalso; simp [nodeParses, han, hcn, hnum] at h
        | some n =>
          refine ⟨n, ?_⟩
          cases hr : ncn.reset with
          | none =>
            simp [clicksKeyAndReset, resetAfter, nodeTaggedCount, han, hcn, hnum, hr]
          | some b =>
            cases b with
            | false =>
              simp [clicksKeyAndReset, resetAfter, nodeTaggedCount, han, hcn,
                hnum, hr]
            | true =>
              by_cases hc : n < cur ∨ cur = -1
              · simp [clicksKeyAndReset, resetAfter, nodeTaggedCount, resetUpdate,
                  han, hcn, hnum, hr, hc]
              · simp [clicksKeyAndReset, resetAfter, nodeTaggedCount, resetUpdate,
                  han, hcn, hnum, hr, hc]

theorem processActionsNode_of_parses (l : W3DLink) (an : ActionsNode)
    (h : nodeParses an = true) :
    ∃ l', processActionsNode l an = .ok l' ∧
      l'.reset = resetAfter an l.reset := by
  obtain ⟨k, hk⟩ := clicksKeyAndReset_of_parses an l.reset h
  have hed : processActionsNode l an =
      .ok { l with
              reset := resetAfter an l.reset
              actions := an.actions.foldl (fun m a => addAction m k a) l.actions } := by
    unfold processActionsNode
    rw [hk]
  exact ⟨_, hed, rfl⟩

theorem clicksKeyAndReset_eq (an : ActionsNode) (cur : Int)
    (h : nodeParses an = true) :
    clicksKeyAndReset an cur = .ok (nodeKey an, resetAfter an cur) := by
  cases han : an.clicksChild with
  | none =>
    simp [clicksKeyAndReset, nodeKey, resetAfter, nodeTaggedCount, han]
  | some cn =>
    cases hcn : cn.numClicks with
    | none =>
      simp [clicksKeyAndReset, nodeKey, resetAfter, nodeTaggedCount, han, hcn]
    | some ncn =>
      cases hnum : ncn.num_clicks with
      | none => exfalso; simp [nodeParses, han, hcn, hnum] at h
      | some v =>
        cases v with
        | none => exfalso; simp [nodeParses, han, hcn, hnum] at h
        | some n =>
          cases hr : ncn.reset with
          | none =>
            simp [clicksKeyAndReset, nodeKey, resetAfter, nodeTaggedCount,
              han, hcn, hnum, hr]
          | some b =>
            cases b with
            | false =>
              simp [clicksKeyAndReset, nodeKey, resetAfter, nodeTaggedCount,
                han, hcn, hnum, hr]
            | true =>
              by_cases hc : n < cur ∨ cur = -1
              · simp [clicksKeyAndReset, nodeKey, resetAfter, nodeTaggedCount,
                  resetUpdate, han, hcn, hnum, hr, hc]
              · simp [clicksKeyAndReset, nodeKey, resetAfter, nodeTaggedCount,
                  resetUpdate, han, hcn, hnum, hr, hc]

theorem processActionsNode_eq (l : W3DLink) (an : ActionsNode)
    (h : nodeParses an = true) :
    processActionsNode l an = .ok (processNodeP l an) := by
  unfold processActionsNode
  rw [clicksKeyAndReset_eq an l.reset h]
  rfl

theorem foldlM_processActionsNode_eq (nodes : List ActionsNode) :
    ∀ l : W3DLink, (∀ an ∈ nodes, nodeParses an = true) →
      nodes.foldlM processActionsNode l = .ok (nodes.foldl processNodeP l) := by
  induction nodes with
  | nil => intro l _; rfl
  | cons an rest ih =>
    intro l hall
    rw [List.foldlM_cons,
      processActionsNode_eq l an (hall an (List.mem_cons_self _ _))]
    simpa using ih (processNodeP l an)
      (fun x hx => hall x (List.mem_cons_of_mem _ hx))

/-- Under per-node parsing, `fromXML`'s fold succeeds and its final reset
is the fold of `resetUpdate` over the tagged counts. -/
theorem foldlM_reset (nodes : List ActionsNode) :
    ∀ l : W3DLink, (∀ an ∈ nodes, nodeParses an = true) →
    ∃ l', nodes.foldlM processActionsNode l = .ok l' ∧
      l'.reset = (nodes.filterMap nodeTaggedCount).foldl resetUpdate l.reset := by
  induction nodes with
  | nil => intro l _; exact ⟨l, rfl, rfl⟩
  | cons an rest ih =>
    intro l hall
    have han : nodeParses an = true := hall an (List.mem_cons_self _ _)
    obtain ⟨l1, hl1, hreset⟩ := processActionsNode_of_parses l an han
    obtain ⟨l', hl', hreset'⟩ := ih l1 (fun a ha => hall a (List.mem_cons_of_mem _ ha))
    refine ⟨l', ?_, ?_⟩
    · rw [List.foldlM_cons, hl1]
      simpa using hl'
    · rw [hreset', hreset, List.filterMap_cons]
      cases htc : nodeTaggedCount an <;> simp [resetAfter, htc]

/-- The `resetUpdate` fold started at `-1` over non-negative counts
computes their minimum (and stays `-1` for the empty list). -/
theorem resetUpdate_fold_min (tagged : List Int)
    (hpos : ∀ n ∈ tagged, 0 ≤ n) :
    (tagged = [] ∧ tagged.foldl resetUpdate (-1) = -1) ∨
    (tagged.foldl resetUpdate (-1) ∈ tagged ∧
      ∀ n ∈ tagged, tagged.foldl resetUpdate (-1) ≤ n) := by
  have key : ∀ (rest : List Int) (cur : Int), 0 ≤ cur →
      (∀ m ∈ rest, 0 ≤ m) →
      (rest.foldl resetUpdate cur = cur ∨ rest.foldl resetUpdate cur ∈ rest) ∧
      rest.foldl resetUpdate cur ≤ cur ∧
      ∀ m ∈ rest, rest.foldl resetUpdate cur ≤ m := by
    intro rest
    induction rest with
    | nil => intro cur _ _; exact ⟨Or.inl rfl, le_refl _, by intro m hm; cases hm⟩
    | cons m rest ih =>
      intro cur hcur hall
      have hm0 : 0 ≤ m := hall m (List.mem_cons_self _ _)
      have hcur' : resetUpdate cur m = m ∨ resetUpdate cur m = cur := by
        unfold resetUpdate; by_cases hc : m < cur ∨ cur = -1 <;> simp [hc]
      have hle_cur : resetUpdate cur m ≤ cur := by
        unfold resetUpdate
        by_cases hc : m < cur ∨ cur = -1
        · rcases hc with hc | hc
          · simp [show m < cur ∨ cur = -1 from Or.inl hc]; omega
          · omega
        · simp [hc]
      have hle_m : resetUpdate cur m ≤ m := by
        unfold resetUpdate
        by_cases hc : m < cur ∨ cur = -1
        · simp [hc]
        · push_neg at hc
          simp [show ¬(m < cur ∨ cur = -1) by push_neg; exact hc]
          omega
      have h0' : 0 ≤ resetUpdate cur m := by
        rcases hcur' with h | h <;> rw [h] <;> assumption
      obtain ⟨hmem, hle, hforall⟩ :=
        ih (resetUpdate cur m) h0' (fun x hx => hall x (List.mem_cons_of_mem _ hx))
      rw [List.foldl_cons]
      refine ⟨?_, ?_, ?_⟩
      · rcases hmem with h | h
        · rcases hcur' with h2 | h2
          · right; rw [h, h2]; exact List.mem_cons_self _ _
          · left; rw [h, h2]
        · right; exact List.mem_cons_of_mem _ h
      · exact le_trans hle hle_cur
      · intro x hx
        rcases List.mem_cons.mp hx with rfl | hx
        · exact le_trans hle hle_m
        · exact hforall x hx
  cases tagged with
  | nil => exact Or.inl ⟨rfl, rfl⟩
  | cons n rest =>
    right
    have hn0 : 0 ≤ n := hpos n (List.mem_cons_self _ _)
    have hstep : resetUpdate (-1) n = n := by unfold resetUpdate; simp
    rw [List.foldl_cons, hstep]
    obtain ⟨hmem, hle, hforall⟩ :=
      key rest n hn0 (fun m hm => hpos m (List.mem_cons_of_mem _ hm))
    refine ⟨?_, ?_⟩
    · rcases hmem with h | h
      · rw [h]; exact List.mem_cons_self _ _
      · exact List.mem_cons_of_mem _ h
    · intro m hm
      rcases List.mem_cons.mp hm with rfl | hm
      · exact hle
      · exact hforall m hm

theorem taggedCounts_nonneg (ln : LinkNode)
    (hp : ∀ an ∈ ln.actionsNodes, nodeParses an = true) :
    ∀ n ∈ taggedCounts ln, 0 ≤ n := by
  intro n hn
  obtain ⟨an, han, htc⟩ := List.mem_filterMap.mp hn
  have hpar := hp an han
  cases hcc : an.clicksChild with
  | none => simp [nodeTaggedCount, hcc] at htc
  | some cn =>
    cases hcn : cn.numClicks with
    | none => simp [nodeTaggedCount, hcc, hcn] at htc
    | some ncn =>
      cases hnum : ncn.num_clicks with
      | none => simp [nodeParses, hcc, hcn, hnum] at hpar
      | some v =>
        cases v with
        | none => simp [nodeParses, hcc, hcn, hnum] at hpar
        | some m =>
          cases hr : ncn.reset with
          | none => simp [nodeTaggedCount, hcc, hcn, hnum, hr] at htc
          | some b =>
            cases b with
            | false => simp [nodeTaggedCount, hcc, hcn, hnum, hr] at htc
            | true =>
              simp [nodeTaggedCount, hcc, hcn, hnum, hr] at htc
              simp [nodeParses, hcc, hcn, hnum] at hpar
              omega

/-- The effective reset computed by `W3DLink.fromXML`: the fold of the
source's reset update over the tagged counts, starting at the default. -/
theorem fromXML_reset_eq (root : LinkRoot) (ln : LinkNode)
    (hlink : root.link = some ln)
    (hp : ∀ an ∈ ln.actionsNodes, nodeParses an = true) :
    ∃ l, W3DLink.fromXML root = .ok l ∧
      l.reset = (taggedCounts ln).foldl resetUpdate (-1) := by
  obtain ⟨l', h1, h2⟩ := foldlM_reset ln.actionsNodes
    { enabled := ln.enabled
      remain_enabled := ln.remain_enabled
      enabled_color := ln.enabled_color.getD (0, 128, 255)
      selected_color := ln.selected_color.getD (255, 0, 0) } hp
  refine ⟨l', ?_, ?_⟩
  · unfold W3DLink.fromXML
    rw [hlink]
    exact h1
  · rw [h2]
    rfl

/-- C3: when every `NumClicks` node of the document parses to a
non-negative click count, `W3DLink.fromXML` succeeds and the resulting
link's `reset` is the minimum of the reset-tagged click counts (stated as
a least element of `taggedCounts`), or the default `-1` when no entry is
tagged; and the value is independent of the order of the `Actions`
entries. -/
theorem claim_C3_reset_min (root : LinkRoot) (ln : LinkNode)
    (hlink : root.link = some ln)
    (hp : ∀ an ∈ ln.actionsNodes, nodeParses an = true) :
    ∃ l, W3DLink.fromXML root = .ok l ∧
      ((taggedCounts ln = [] ∧ l.reset = -1) ∨
        (l.reset ∈ taggedCounts ln ∧ ∀ n ∈ taggedCounts ln, l.reset ≤ n)) ∧
      ∀ root₂ ln₂, root₂.link = some ln₂ →
        List.Perm ln₂.actionsNodes ln.actionsNodes →
        ∃ l₂, W3DLink.fromXML root₂ = .ok l₂ ∧ l₂.reset = l.reset := by
  obtain ⟨l, hok, hres⟩ := fromXML_reset_eq root ln hlink hp
  have hmin := resetUpdate_fold_min (taggedCounts ln) (taggedCounts_nonneg ln hp)
  refine ⟨l, hok, ?_, ?_⟩
  · rw [hres]
    exact hmin
  · intro root₂ ln₂ hlink₂ hperm
    have hp₂ : ∀ an ∈ ln₂.actionsNodes, nodeParses an = true :=
      fun an ha => hp an (hperm.mem_iff.mp ha)
    obtain ⟨l₂, hok₂, hres₂⟩ := fromXML_reset_eq root₂ ln₂ hlink₂ hp₂
    have hmin₂ := resetUpdate_fold_min (taggedCounts ln₂) (taggedCounts_nonneg ln₂ hp₂)
    have hpermT : List.Perm (taggedCounts ln₂) (taggedCounts ln) :=
      hperm.filterMap _
    refine ⟨l₂, hok₂, ?_⟩
    rw [hres, hres₂]
    rcases hmin with ⟨hnil, hval⟩ | ⟨hmem, hle⟩
    · rcases hmin₂ with ⟨_, hval₂⟩ | ⟨hmem₂, _⟩
      · rw [hval, hval₂]
      · rw [hnil] at hpermT
        exact absurd (hpermT.mem_iff.mp hmem₂) (List.not_mem_nil _)
    · rcases hmin₂ with ⟨hnil₂, _⟩ | ⟨hmem₂, hle₂⟩
      · rw [hnil₂] at hpermT
        exact absurd (hpermT.symm.mem_iff.mp hmem) (List.not_mem_nil _)
      · exact le_antisymm
          (hle₂ _ (hpermT.symm.mem_iff.mp hmem))
          (hle _ (hpermT.mem_iff.mp hmem₂))

/-- Witness for C3 at the spec's example: reset tags at counts 5 and 3
give effective reset 3. -/
theorem claim_C3_reset_min_witness :
    ∃ l, W3DLink.fromXML { link := some c3ExampleLink } = .ok l ∧ l.reset = 3 := by
  obtain ⟨l, hok, hmin, _⟩ :=
    claim_C3_reset_min { link := some c3ExampleLink } c3ExampleLink rfl (by decide)
  refine ⟨l, hok, ?_⟩
  have htag : taggedCounts c3ExampleLink = [5, 3] := rfl
  rcases hmin with ⟨hnil, _⟩ | ⟨hmem, hle⟩
  · rw [htag] at hnil
    cases hnil
  · rw [htag] at hmem hle
    have h3 := hle 3 (by decide)
    rcases List.mem_cons.mp hmem with h | h
    · omega
    · rcases List.mem_cons.mp h with h' | h'
      · omega
      · cases h'

/-- C10: a lenient `Clicks` subtree never raises: a missing `Clicks`
child, or a `Clicks` child without `NumClicks`, files the node's actions
under the any-count sentinel `-1`; a `NumClicks` node without a `reset`
attribute is accepted (the `KeyError` is passed over), filing under the
parsed count; in all three cases the link's `reset` is left unchanged. -/
theorem claim_C10_lenient_clicks :
    (∀ (l : W3DLink) (an : ActionsNode), an.clicksChild = none →
      processActionsNode l an =
        .ok { l with actions := an.actions.foldl (fun m a => addAction m (-1) a) l.actions }) ∧
    (∀ (l : W3DLink) (an : ActionsNode) (cn : ClicksNode),
      an.clicksChild = some cn → cn.numClicks = none →
      processActionsNode l an =
        .ok { l with actions := an.actions.foldl (fun m a => addAction m (-1) a) l.actions }) ∧
    (∀ (l : W3DLink) (an : ActionsNode) (cn : ClicksNode) (ncn : NumClicksNode)
        (n : Int),
      an.clicksChild = some cn → cn.numClicks = some ncn →
      ncn.num_clicks = some (some n) → ncn.reset = none →
      processActionsNode l an =
        .ok { l with actions := an.actions.foldl (fun m a => addAction m n a) l.actions }) := by
  refine ⟨?_, ?_, ?_⟩
  · intro l an h
    simp [processActionsNode, clicksKeyAndReset, h]
  · intro l an cn h1 h2
    simp [processActionsNode, clicksKeyAndReset, h1, h2]
  · intro l an cn ncn n h1 h2 h3 h4
    simp [processActionsNode, clicksKeyAndReset, h1, h2, h3, h4]

/-- Witness for C10: the three lenient shapes at concrete nodes. -/
theorem claim_C10_lenient_clicks_witness :
    processActionsNode {} { clicksChild := none, actions := [7] } =
      .ok { actions := [(-1, [7])] } ∧
    processActionsNode {} { clicksChild := some { numClicks := none }, actions := [8] } =
      .ok { actions := [(-1, [8])] } ∧
    processActionsNode { reset := 4 }
        { clicksChild := some { numClicks := some { num_clicks := some (some 2),
                                                    reset := none } },
          actions := [9] } =
      .ok { reset := 4, actions := [(2, [9])] } := by
  refine ⟨?_, ?_, ?_⟩
  · exact (claim_C10_lenient_clicks.1 {} _ rfl).trans (by rfl)
  · exact (claim_C10_lenient_clicks.2.1 {} _ _ rfl rfl).trans (by rfl)
  · exact (claim_C10_lenient_clicks.2.2 { reset := 4 } _ _ _ 2 rfl rfl rfl rfl).trans
      (by rfl)

theorem insortPair_perm (l : List (Time × Act)) (p : Time × Act) :
    List.Perm (insortPair l p) (p :: l) := by
  induction l with
  | nil => exact List.Perm.refl _
  | cons q rest ih =>
    unfold insortPair
    by_cases hc : p.1 < q.1
    · simp [hc]
    · simp only [hc, if_false]
      exact (ih.cons q).trans (List.Perm.swap p q rest)

theorem insortPair_sorted (l : List (Time × Act)) (p : Time × Act)
    (h : timeSorted l) : timeSorted (insortPair l p) := by
  induction l with
  | nil => exact List.pairwise_singleton _ _
  | cons q rest ih =>
    obtain ⟨hq, hrest⟩ := List.pairwise_cons.mp h
    unfold insortPair
    by_cases hc : p.1 < q.1
    · simp only [hc, if_true]
      refine List.pairwise_cons.mpr ⟨?_, h⟩
      intro x hx
      rcases List.mem_cons.mp hx with rfl | hx
      · exact le_of_lt hc
      · exact le_trans (le_of_lt hc) (hq x hx)
    · simp only [hc, if_false]
      refine List.pairwise_cons.mpr ⟨?_, ih hrest⟩
      intro x hx
      rcases List.mem_cons.mp ((insortPair_perm rest p).mem_iff.mp hx) with rfl | hx
      · exact le_of_not_lt hc
      · exact hq x hx

theorem insortPair_filter (l : List (Time × Act)) (p : Time × Act)
    (h : timeSorted l) (t : Time) :
    (insortPair l p).filter (fun q => decide (q.1 = t)) =
      if p.1 = t then l.filter (fun q => decide (q.1 = t)) ++ [p]
      else l.filter (fun q => decide (q.1 = t)) := by
  induction l with
  | nil =>
    by_cases hp : p.1 = t <;> simp [insortPair, List.filter, hp]
  | cons q rest ih =>
    obtain ⟨hq, hrest⟩ := List.pairwise_cons.mp h
    unfold insortPair
    by_cases hc : p.1 < q.1
    · simp only [hc, if_true]
      have hnone : (q :: rest).filter (fun x => decide (x.1 = p.1)) = [] := by
        rw [List.filter_eq_nil_iff]
        intro x hx
        rcases List.mem_cons.mp hx with rfl | hx
        · simp only [decide_eq_true_eq]
          exact ne_of_gt hc
        · simp only [decide_eq_true_eq]
          exact ne_of_gt (lt_of_lt_of_le hc (hq x hx))
      by_cases hp : p.1 = t
      · subst hp
        rw [List.filter_cons_of_pos (by simp)]
        simp [hnone]
      · rw [List.filter_cons_of_neg (by simpa using hp)]
        simp [hp]
    · simp only [hc, if_false]
      by_cases hqt : q.1 = t
      · rw [List.filter_cons_of_pos (by simpa using hqt),
          List.filter_cons_of_pos (by simpa using hqt), ih hrest]
        by_cases hp : p.1 = t <;> simp [hp]
      · rw [List.filter_cons_of_neg (by simpa using hqt),
          List.filter_cons_of_neg (by simpa using hqt), ih hrest]

theorem buildActions_invariants (seq : List (Time × Act)) :
    ∀ acc : List (Time × Act), timeSorted acc →
      timeSorted (seq.foldl insortPair acc) ∧
      List.Perm (seq.foldl insortPair acc) (acc ++ seq) ∧
      ∀ t : Time, (seq.foldl insortPair acc).filter (fun q => decide (q.1 = t)) =
        acc.filter (fun q => decide (q.1 = t)) ++
          seq.filter (fun q => decide (q.1 = t)) := by
  induction seq with
  | nil =>
    intro acc hacc
    exact ⟨hacc, by simp, fun t => by simp⟩
  | cons p rest ih =>
    intro acc hacc
    obtain ⟨hs, hperm, hfil⟩ := ih (insortPair acc p) (insortPair_sorted acc p hacc)
    simp only [List.foldl_cons]
    refine ⟨hs, ?_, ?_⟩
    · have h1 : List.Perm (insortPair acc p ++ rest) ((p :: acc) ++ rest) :=
        (insortPair_perm acc p).append_right rest
      have h2 : List.Perm ((p :: acc) ++ rest) (acc ++ p :: rest) :=
        List.perm_middle.symm
      exact hperm.trans (h1.trans h2)
    · intro t
      rw [hfil t, insortPair_filter acc p hacc t]
      by_cases hp : p.1 = t
      · simp [hp, List.filter_cons]
      · simp [hp, List.filter_cons]

/-- C4: for every insertion sequence, the built collection iterates in
non-decreasing start-time order, contains exactly the inserted pairs, and
lists pairs of equal start time in insertion order (the per-time
subsequence equals the per-time subsequence of the insertion sequence). -/
theorem claim_C4_timeline_order (seq : List (Time × Act)) :
    timeSorted (buildActions seq) ∧
    List.Perm (buildActions seq) seq ∧
    ∀ t : Time, (buildActions seq).filter (fun q => decide (q.1 = t)) =
      seq.filter (fun q => decide (q.1 = t)) := by
  obtain ⟨hs, hperm, hfil⟩ := buildActions_invariants seq [] (List.Pairwise.nil)
  exact ⟨hs, by simpa using hperm, fun t => by simpa using hfil t⟩

/-- C7: the link/write compile steps of timelines and links raise
`EBKAC` before `blend()` has assigned the activator, and succeed after
`blend()`; `link_detection_bricks` raises `EBKAC` while the detection
sensor or controller is missing and succeeds after
`create_blender_objects`. -/
theorem claim_C7_ebkac_preconditions :
    (∀ s : W3DTimelineRT, s.activator = none →
      s.link_blender_logic =
        .error (.ebkac "blend() must be called before link_blender_logic()") ∧
      s.write_blender_logic =
        .error (.ebkac "blend() must be called before write_blender_logic()")) ∧
    (∀ s : W3DTimelineRT,
      s.blend.link_blender_logic = .ok () ∧ s.blend.write_blender_logic = .ok ()) ∧
    (∀ s : W3DLinkRT, s.activator = none →
      s.link_blender_logic =
        .error (.ebkac "blend() must be called before link_blender_logic()") ∧
      s.write_blender_logic =
        .error (.ebkac "blend() must be called before write_blender_logic()")) ∧
    (∀ s : W3DLinkRT,
      s.blend.link_blender_logic = .ok () ∧ s.blend.write_blender_logic = .ok ()) ∧
    (∀ s : TriggerBricks, s.enable_sensor = false ∨ s.detect_controller = false →
      linkDetectionBricks s =
        .error (.ebkac
          "Detection sensor and controller must be created before they can be linked")) ∧
    (∀ s : TriggerBricks, linkDetectionBricks (createBlenderObjects s) = .ok ()) := by
  refine ⟨?_, ?_, ?_, ?_, ?_, ?_⟩
  · intro s h
    constructor <;> simp [W3DTimelineRT.link_blender_logic,
      W3DTimelineRT.write_blender_logic, h]
  · intro s
    constructor <;> simp [W3DTimelineRT.blend, W3DTimelineRT.link_blender_logic,
      W3DTimelineRT.write_blender_logic, BlenderActivator.link_logic_bricks,
      BlenderActivator.write_python_logic]
  · intro s h
    constructor <;> simp [W3DLinkRT.link_blender_logic,
      W3DLinkRT.write_blender_logic, h]
  · intro s
    constructor <;> simp [W3DLinkRT.blend, W3DLinkRT.link_blender_logic,
      W3DLinkRT.write_blender_logic, BlenderActivator.link_logic_bricks,
      BlenderActivator.write_python_logic]
  · intro s h
    rcases h with h | h <;> simp [linkDetectionBricks, h]
  · intro s
    simp [linkDetectionBricks, createBlenderObjects, createDetectionController,
      createEnabledSensor]

/-- Witness for C7 at concrete states: a fresh timeline/link object
before and after `blend()`, a fresh trigger before and after
`create_blender_objects`. -/
theorem claim_C7_ebkac_preconditions_witness :
    ({ feature := {} } : W3DTimelineRT).link_blender_logic =
      .error (.ebkac "blend() must be called before link_blender_logic()") ∧
    ({ feature := {} } : W3DTimelineRT).blend.write_blender_logic = .ok () ∧
    ({ feature := {} } : W3DLinkRT).write_blender_logic =
      .error (.ebkac "blend() must be called before write_blender_logic()") ∧
    ({ feature := {} } : W3DLinkRT).blend.link_blender_logic = .ok () ∧
    linkDetectionBricks {} =
      .error (.ebkac
        "Detection sensor and controller must be created before they can be linked") ∧
    linkDetectionBricks (createBlenderObjects {}) = .ok () := by
  refine ⟨(claim_C7_ebkac_preconditions.1 _ rfl).1,
    (claim_C7_ebkac_preconditions.2.1 _).2,
    (claim_C7_ebkac_preconditions.2.2.1 _ rfl).2,
    (claim_C7_ebkac_preconditions.2.2.2.1 _).1,
    claim_C7_ebkac_preconditions.2.2.2.2.1 _ (Or.inl rfl),
    claim_C7_ebkac_preconditions.2.2.2.2.2 _⟩

/-- C8: a pair with negative start time is rejected at insertion with a
`ValidationError`, for every negative time; a non-negative time is
accepted; and compiling (`blend`) an empty timeline is legal, producing
the no-op activator graph. -/
theorem claim_C8_insert_validation :
    (∀ (tl : W3DTimeline) (t : Time) (a : Act), t < 0 →
      tl.insertAction (t, a) =
        .error (.validationError "Start time in seconds must be no less than 0")) ∧
    (∀ (tl : W3DTimeline) (t : Time) (a : Act), 0 ≤ t →
      tl.insertAction (t, a) = .ok { tl with actions := insortPair tl.actions (t, a) }) ∧
    (∀ (nm : Option String) (si : Bool),
      ({ feature := { name := nm, start_immediately := si, actions := [] } } :
          W3DTimelineRT).blend.activator =
        some { nodes := [], objectsCreated := true }) := by
  refine ⟨?_, ?_, ?_⟩
  · intro tl t a hneg
    simp [W3DTimeline.insertAction, startTimeValidator, IsNumericValidator.check,
      not_le.mpr hneg]
  · intro tl t a hpos
    simp [W3DTimeline.insertAction, startTimeValidator, IsNumericValidator.check,
      hpos]
  · intro nm si
    rfl

/-- Witness for C8 at `t = -1` (rejected) and `t = 0` (accepted), and
the empty timeline compiled. -/
theorem claim_C8_insert_validation_witness :
    (-1 : Time) < 0 ∧
    W3DTimeline.insertAction {} (-1, 0) =
      .error (.validationError "Start time in seconds must be no less than 0") ∧
    W3DTimeline.insertAction {} (0, 5) = .ok { actions := [(0, 5)] } ∧
    ({ feature := {} } : W3DTimelineRT).blend.activator =
      some { nodes := [], objectsCreated := true } := by
  refine ⟨by norm_num, claim_C8_insert_validation.1 {} (-1) 0 (by norm_num),
    (claim_C8_insert_validation.2.1 {} 0 5 (by norm_num)).trans (by rfl),
    claim_C8_insert_validation.2.2 none true⟩

theorem insertAction_ok (tl : W3DTimeline) (t : Time) (a : Act) (ht : 0 ≤ t) :
    tl.insertAction (t, a) =
      .ok { tl with actions := insortPair tl.actions (t, a) } := by
  simp [W3DTimeline.insertAction, startTimeValidator, IsNumericValidator.check, ht]

theorem insertAction_foldlM_ok (t : Time) (ht : 0 ≤ t) (children : List Act) :
    ∀ tl : W3DTimeline,
      children.foldlM (fun tl' a => tl'.insertAction (t, a)) tl =
        .ok { tl with actions :=
                children.foldl (fun acc a => insortPair acc (t, a)) tl.actions } := by
  induction children with
  | nil => intro tl; rfl
  | cons a rest ih =>
    intro tl
    have hstep : tl.insertAction (t, a) =
        .ok { tl with actions := insortPair tl.actions (t, a) } :=
      insertAction_ok tl t a ht
    rw [List.foldlM_cons, hstep]
    simpa using ih { tl with actions := insortPair tl.actions (t, a) }

theorem processTimedActions_ok (tl : W3DTimeline) (ta : TimedActionsNode)
    (t : Time) (hts : ta.seconds_time = some (some t)) (ht : 0 ≤ t) :
    processTimedActions tl ta =
      .ok { tl with actions :=
              ta.children.foldl (fun acc a => insortPair acc (t, a)) tl.actions } := by
  unfold processTimedActions
  rw [hts]
  exact insertAction_foldlM_ok t ht ta.children tl

theorem timedActions_foldlM_error (tas : List TimedActionsNode) :
    ∀ tl : W3DTimeline, (∀ ta ∈ tas, taTimesOk ta = true) →
      (∃ ta ∈ tas, taDefective ta = true) →
      tas.foldlM processTimedActions tl =
        .error (.badW3DXML
          "TimedActions node must specify numeric seconds-time attribute") := by
  induction tas with
  | nil => intro tl _ hdef; obtain ⟨ta, hta, _⟩ := hdef; cases hta
  | cons ta rest ih =>
    intro tl hok hdef
    cases hts : ta.seconds_time with
    | none =>
      rw [List.foldlM_cons]
      have : processTimedActions tl ta = .error (.badW3DXML
          "TimedActions node must specify numeric seconds-time attribute") := by
        unfold processTimedActions; rw [hts]
      rw [this]
      rfl
    | some v =>
      cases v with
      | none =>
        rw [List.foldlM_cons]
        have : processTimedActions tl ta = .error (.badW3DXML
            "TimedActions node must specify numeric seconds-time attribute") := by
          unfold processTimedActions; rw [hts]
        rw [this]
        rfl
      | some t =>
        have ht : 0 ≤ t := by
          have := hok ta (List.mem_cons_self _ _)
          simp [taTimesOk, hts] at this
          exact this
        have hdef' : ∃ ta' ∈ rest, taDefective ta' = true := by
          obtain ⟨ta', hta', hd⟩ := hdef
          rcases List.mem_cons.mp hta' with rfl | hta'
          · exfalso; simp [taDefective, hts] at hd
          · exact ⟨ta', hta', hd⟩
        rw [List.foldlM_cons, processTimedActions_ok tl ta t hts ht]
        simpa using ih _ (fun x hx => hok x (List.mem_cons_of_mem _ hx)) hdef'

/-- C9: deserialization surfaces missing required fields as `BadW3DXML`
errors: a `LinkRoot` without a `Link` child, a `Timeline` node without a
`name` attribute, and a `TimedActions` node whose `seconds-time`
attribute is missing or non-numeric (the other nodes' times passing the
validator, so that no earlier error masks it). -/
theorem claim_C9_missing_fields :
    (∀ root : LinkRoot, root.link = none →
      W3DLink.fromXML root =
        .error (.badW3DXML "LinkRoot element has no Link subelement")) ∧
    (∀ td : TimelineNode, td.name = none →
      W3DTimeline.fromXML td =
        .error (.badW3DXML "Timeline node must specify name attribute")) ∧
    (∀ (td : TimelineNode) (nm : String), td.name = some nm →
      (∀ ta ∈ td.timedActions, taTimesOk ta = true) →
      (∃ ta ∈ td.timedActions, taDefective ta = true) →
      W3DTimeline.fromXML td =
        .error (.badW3DXML
          "TimedActions node must specify numeric seconds-time attribute")) := by
  refine ⟨?_, ?_, ?_⟩
  · intro root h
    unfold W3DLink.fromXML
    rw [h]
  · intro td h
    unfold W3DTimeline.fromXML
    rw [h]
  · intro td nm h hok hdef
    unfold W3DTimeline.fromXML
    rw [h]
    exact timedActions_foldlM_error td.timedActions _ hok hdef

/-- Witness for C9: a linkless `LinkRoot`, a nameless `Timeline` node,
and a timeline whose sole `TimedActions` node lacks `seconds-time`. -/
theorem claim_C9_missing_fields_witness :
    W3DLink.fromXML { link := none } =
      .error (.badW3DXML "LinkRoot element has no Link subelement") ∧
    W3DTimeline.fromXML { name := none, start_immediately := none, timedActions := [] } =
      .error (.badW3DXML "Timeline node must specify name attribute") ∧
    W3DTimeline.fromXML
        { name := some "tl"
          start_immediately := none
          timedActions := [{ seconds_time := none, children := [] }] } =
      .error (.badW3DXML
        "TimedActions node must specify numeric seconds-time attribute") := by
  refine ⟨claim_C9_missing_fields.1 _ rfl, claim_C9_missing_fields.2.1 _ rfl,
    claim_C9_missing_fields.2.2 _ "tl" rfl (by decide) ⟨_, List.mem_singleton_self _, rfl⟩⟩

theorem addAction_keys (m : List (Int × List Act)) (k : Int) (a : Act) :
    mapKeys (addAction m k a) =
      if k ∈ mapKeys m then mapKeys m else mapKeys m ++ [k] := by
  induction m with
  | nil => simp [addAction, mapKeys]
  | cons p rest ih =>
    obtain ⟨k', l⟩ := p
    by_cases hk : k' = k
    · subst hk
      simp [addAction, mapKeys]
    · have hne : ¬k = k' := fun h => hk h.symm
      simp only [addAction, hk, if_false]
      simp only [mapKeys, List.map_cons, List.mem_cons, hne, false_or] at ih ⊢
      rw [ih]
      by_cases hm : k ∈ List.map Prod.fst rest
      · simp [hm]
      · simp [hm]

theorem addAction_keys_superset (m : List (Int × List Act)) (k : Int) (a : Act) :
    mapKeys m ⊆ mapKeys (addAction m k a) := by
  rw [addAction_keys]
  by_cases hm : k ∈ mapKeys m
  · simp [hm]
  · simp only [hm, if_false]
    exact List.subset_append_left _ _

theorem addAction_key_mem (m : List (Int × List Act)) (k : Int) (a : Act) :
    k ∈ mapKeys (addAction m k a) := by
  rw [addAction_keys]
  by_cases hm : k ∈ mapKeys m
  · rw [if_pos hm]
    exact hm
  · simp [hm]

theorem addAction_nodup (m : List (Int × List Act)) (k : Int) (a : Act)
    (h : (mapKeys m).Nodup) : (mapKeys (addAction m k a)).Nodup := by
  rw [addAction_keys]
  by_cases hm : k ∈ mapKeys m
  · simpa [hm] using h
  · simp only [hm, if_false]
    rw [List.nodup_append]
    refine ⟨h, List.nodup_singleton _, ?_⟩
    intro x hx hxk
    rw [List.mem_singleton] at hxk
    rw [hxk] at hx
    exact hm hx

theorem addAction_mem_prop (P : Int → List Act → Prop)
    (hmono : ∀ k' l' a', P k' l' → P k' (l' ++ [a']))
    (m : List (Int × List Act)) (k : Int) (a : Act)
    (hnew : P k [a]) (h : ∀ p ∈ m, P p.1 p.2) :
    ∀ p ∈ addAction m k a, P p.1 p.2 := by
  induction m with
  | nil =>
    intro p hp
    rcases List.mem_singleton.mp hp with rfl
    exact hnew
  | cons q rest ih =>
    obtain ⟨k', l⟩ := q
    intro p hp
    by_cases hk : k' = k
    · subst hk
      simp only [addAction, if_pos rfl] at hp
      rcases List.mem_cons.mp hp with rfl | hp
      · exact hmono _ _ _ (h (k', l) (List.mem_cons_self _ _))
      · exact h p (List.mem_cons_of_mem _ hp)
    · simp only [addAction, hk, if_false] at hp
      rcases List.mem_cons.mp hp with rfl | hp
      · exact h (k', l) (List.mem_cons_self _ _)
      · exact ih (fun q hq => h q (List.mem_cons_of_mem _ hq)) p hp

theorem foldAdd_keys_superset (acts : List Act) (k : Int) :
    ∀ m : List (Int × List Act),
      mapKeys m ⊆ mapKeys (acts.foldl (fun m' a => addAction m' k a) m) := by
  induction acts with
  | nil => intro m; exact fun x hx => hx
  | cons a rest ih =>
    intro m
    exact fun x hx => ih (addAction m k a) (addAction_keys_superset m k a hx)

theorem foldAdd_key_mem (acts : List Act) (k : Int)
    (m : List (Int × List Act)) (hne : acts ≠ []) :
    k ∈ mapKeys (acts.foldl (fun m' a => addAction m' k a) m) := by
  cases acts with
  | nil => exact absurd rfl hne
  | cons a rest =>
    rw [List.foldl_cons]
    exact foldAdd_keys_superset rest k (addAction m k a) (addAction_key_mem m k a)

theorem foldAdd_nodup (acts : List Act) (k : Int) :
    ∀ m : List (Int × List Act), (mapKeys m).Nodup →
      (mapKeys (acts.foldl (fun m' a => addAction m' k a) m)).Nodup := by
  induction acts with
  | nil => intro m h; exact h
  | cons a rest ih =>
    intro m h
    exact ih (addAction m k a) (addAction_nodup m k a h)

theorem foldAdd_mem_prop (P : Int → List Act → Prop)
    (hmono : ∀ k' l' a', P k' l' → P k' (l' ++ [a']))
    (acts : List Act) (k : Int) (hnew : ∀ a, P k [a]) :
    ∀ m : List (Int × List Act), (∀ p ∈ m, P p.1 p.2) →
      ∀ p ∈ acts.foldl (fun m' a => addAction m' k a) m, P p.1 p.2 := by
  induction acts with
  | nil => intro m h; exact h
  | cons a rest ih =>
    intro m h
    exact ih (addAction m k a) (addAction_mem_prop P hmono m k a (hnew a) h)

theorem nodeKey_range (an : ActionsNode) (h : nodeParses an = true) :
    nodeKey an = -1 ∨ 0 ≤ nodeKey an := by
  cases han : an.clicksChild with
  | none => left; simp [nodeKey, han]
  | some cn =>
    cases hcn : cn.numClicks with
    | none => left; simp [nodeKey, han, hcn]
    | some ncn =>
      cases hnum : ncn.num_clicks with
      | none => exfalso; simp [nodeParses, han, hcn, hnum] at h
      | some v =>
        cases v with
        | none => exfalso; simp [nodeParses, han, hcn, hnum] at h
        | some n =>
          right
          have : nodeKey an = n := by simp [nodeKey, han, hcn, hnum]
          rw [this]
          simpa [nodeParses, han, hcn, hnum] using h

theorem nodeTagged_key (an : ActionsNode) (n : Int)
    (h : nodeTaggedCount an = some n) : nodeKey an = n := by
  cases han : an.clicksChild with
  | none => simp [nodeTaggedCount, han] at h
  | some cn =>
    cases hcn : cn.numClicks with
    | none => simp [nodeTaggedCount, han, hcn] at h
    | some ncn =>
      cases hnum : ncn.num_clicks with
      | none => simp [nodeTaggedCount, han, hcn, hnum] at h
      | some v =>
        cases v with
        | none => simp [nodeTaggedCount, han, hcn, hnum] at h
        | some m =>
          cases hr : ncn.reset with
          | none => simp [nodeTaggedCount, han, hcn, hnum, hr] at h
          | some b =>
            cases b with
            | false => simp [nodeTaggedCount, han, hcn, hnum, hr] at h
            | true =>
              simp [nodeTaggedCount, han, hcn, hnum, hr] at h
              simp [nodeKey, han, hcn, hnum, h]

theorem nodeTagged_nonneg (an : ActionsNode) (n : Int)
    (hp : nodeParses an = true) (h : nodeTaggedCount an = some n) : 0 ≤ n := by
  have hk := nodeTagged_key an n h
  rcases nodeKey_range an hp with h1 | h1
  · rw [hk] at h1
    subst h1
    exfalso
    cases han : an.clicksChild with
    | none => simp [nodeTaggedCount, han] at h
    | some cn =>
      cases hcn : cn.numClicks with
      | none => simp [nodeTaggedCount, han, hcn] at h
      | some ncn =>
        cases hnum : ncn.num_clicks with
        | none => simp [nodeParses, han, hcn, hnum] at hp
        | some v =>
          cases v with
          | none => simp [nodeParses, han, hcn, hnum] at hp
          | some m =>
            have h0 : (0 : Int) ≤ m := by
              simpa [nodeParses, han, hcn, hnum] using hp
            have hkm : nodeKey an = m := by simp [nodeKey, han, hcn, hnum]
            rw [hkm] at hk
            omega
  · rw [hk] at h1
    exact h1

theorem processNodeP_inv (s : W3DLink) (an : ActionsNode)
    (hwf : nodeWF an = true) (hinv : LinkInv s) : LinkInv (processNodeP s an) := by
  have hsplit := hwf
  rw [nodeWF, Bool.and_eq_true] at hsplit
  have hp : nodeParses an = true := hsplit.1
  have hne : an.actions ≠ [] := by
    intro hnil
    have := hsplit.2
    rw [hnil] at this
    simp at this
  refine ⟨?_, ?_, ?_, ?_⟩
  · exact foldAdd_nodup _ _ _ hinv.nodup
  · exact foldAdd_mem_prop (fun _ l => l ≠ []) (fun k' l' a' _ => by simp)
      an.actions (nodeKey an) (fun a => by simp) s.actions hinv.vals
  · exact foldAdd_mem_prop (fun k _ => k = -1 ∨ 0 ≤ k) (fun k' l' a' h => h)
      an.actions (nodeKey an) (fun a => nodeKey_range an hp) s.actions hinv.keys
  · show resetAfter an s.reset = -1 ∨
      (0 ≤ resetAfter an s.reset ∧ resetAfter an s.reset ∈
        mapKeys (an.actions.foldl (fun m a => addAction m (nodeKey an) a) s.actions))
    cases htc : nodeTaggedCount an with
    | none =>
      unfold resetAfter
      rw [htc]
      rcases hinv.resetOK with h | ⟨h0, hmem⟩
      · exact Or.inl h
      · exact Or.inr ⟨h0, foldAdd_keys_superset _ _ _ hmem⟩
    | some n =>
      unfold resetAfter
      rw [htc]
      unfold resetUpdate
      by_cases hc : n < s.reset ∨ s.reset = -1
      · simp only [hc, if_true]
        refine Or.inr ⟨nodeTagged_nonneg an n hp htc, ?_⟩
        rw [← nodeTagged_key an n htc]
        exact foldAdd_key_mem _ _ _ hne
      · simp only [hc, if_false]
        rcases hinv.resetOK with h | ⟨h0, hmem⟩
        · exact Or.inl h
        · exact Or.inr ⟨h0, foldAdd_keys_superset _ _ _ hmem⟩

theorem foldP_inv (nodes : List ActionsNode) :
    ∀ s : W3DLink, (∀ an ∈ nodes, nodeWF an = true) → LinkInv s →
      LinkInv (nodes.foldl processNodeP s) := by
  induction nodes with
  | nil => intro s _ h; exact h
  | cons an rest ih =>
    intro s hall hinv
    exact ih (processNodeP s an)
      (fun x hx => hall x (List.mem_cons_of_mem _ hx))
      (processNodeP_inv s an (hall an (List.mem_cons_self _ _)) hinv)

theorem addAction_not_mem (m : List (Int × List Act)) (k : Int) (a : Act)
    (h : k ∉ mapKeys m) : addAction m k a = m ++ [(k, [a])] := by
  induction m with
  | nil => rfl
  | cons p rest ih =>
    obtain ⟨k', l⟩ := p
    have hk : ¬k' = k := by
      intro hkk
      exact h (by simp [mapKeys, hkk])
    have hrest : k ∉ mapKeys rest := fun hx => h (by simp [mapKeys] at hx ⊢; exact Or.inr hx)
    simp only [addAction, hk, if_false, List.cons_append, List.cons.injEq, true_and]
    exact ih hrest

theorem addAction_last (m : List (Int × List Act)) (k : Int) (l : List Act)
    (a : Act) (h : k ∉ mapKeys m) :
    addAction (m ++ [(k, l)]) k a = m ++ [(k, l ++ [a])] := by
  induction m with
  | nil => simp [addAction]
  | cons p rest ih =>
    obtain ⟨k', l'⟩ := p
    have hk : ¬k' = k := by
      intro hkk
      exact h (by simp [mapKeys, hkk])
    have hrest : k ∉ mapKeys rest := fun hx => h (by simp [mapKeys] at hx ⊢; exact Or.inr hx)
    simp only [List.cons_append, addAction, hk, if_false, List.cons.injEq, true_and]
    exact ih hrest

theorem foldAdd_last (rest : List Act) (k : Int) :
    ∀ (m : List (Int × List Act)) (l : List Act), k ∉ mapKeys m →
      rest.foldl (fun m' a => addAction m' k a) (m ++ [(k, l)]) =
        m ++ [(k, l ++ rest)] := by
  induction rest with
  | nil => intro m l _; simp
  | cons a rest ih =>
    intro m l hk
    rw [List.foldl_cons, addAction_last m k l a hk, ih m (l ++ [a]) hk,
      List.append_assoc]
    rfl

theorem foldAdd_group (acts : List Act) (k : Int) (m : List (Int × List Act))
    (h : k ∉ mapKeys m) (hne : acts ≠ []) :
    acts.foldl (fun m' a => addAction m' k a) m = m ++ [(k, acts)] := by
  cases acts with
  | nil => exact absurd rfl hne
  | cons a rest =>
    rw [List.foldl_cons, addAction_not_mem m k a h, foldAdd_last rest k m [a] h]
    rfl

theorem replayGroups (groups : List (Int × List Act)) :
    ∀ acc : List (Int × List Act), (mapKeys (acc ++ groups)).Nodup →
      (∀ g ∈ groups, g.2 ≠ ([] : List Act)) →
      groups.foldl (fun acc' g => g.2.foldl (fun m' a => addAction m' g.1 a) acc') acc =
        acc ++ groups := by
  induction groups with
  | nil => intro acc _ _; simp
  | cons g rest ih =>
    intro acc hnodup hvals
    obtain ⟨k, acts⟩ := g
    have hknotin : k ∉ mapKeys acc := by
      have : (mapKeys acc ++ mapKeys ((k, acts) :: rest)).Nodup := by
        simpa [mapKeys] using hnodup
      have hdisj := (List.nodup_append.mp this).2.2
      intro hx
      exact hdisj hx (by simp [mapKeys])
    rw [List.foldl_cons,
      foldAdd_group acts k acc hknotin (hvals (k, acts) (List.mem_cons_self _ _)),
      ih (acc ++ [(k, acts)])
        (by simpa [mapKeys] using hnodup)
        (fun g hg => hvals g (List.mem_cons_of_mem _ hg))]
    simp

theorem mem_linkActionsNodesFor (r : Int) (groups : List (Int × List Act))
    (an : ActionsNode) :
    an ∈ linkActionsNodesFor r groups ↔
      ∃ ka ∈ groups, ∃ a ∈ ka.2,
        an = { clicksChild := some (clicksNodeFor r ka.1), actions := [a] } := by
  unfold linkActionsNodesFor
  rw [List.mem_flatten]
  constructor
  · rintro ⟨inner, hinner, hmem⟩
    obtain ⟨ka, hka, rfl⟩ := List.mem_map.mp hinner
    obtain ⟨a, ha, rfl⟩ := List.mem_map.mp hmem
    exact ⟨ka, hka, a, ha, rfl⟩
  · rintro ⟨ka, hka, a, ha, rfl⟩
    exact ⟨_, List.mem_map.mpr ⟨ka, hka, rfl⟩, List.mem_map.mpr ⟨a, ha, rfl⟩⟩

theorem genNode_parses (r k : Int) (a : Act) (hk : k = -1 ∨ 0 ≤ k) :
    nodeParses { clicksChild := some (clicksNodeFor r k), actions := [a] } = true := by
  rcases hk with rfl | hk
  · simp [nodeParses, clicksNodeFor]
  · have hneg : ¬k < 0 := not_lt.mpr hk
    simp [nodeParses, clicksNodeFor, hneg, hk]

theorem genNode_wf (r k : Int) (a : Act) (hk : k = -1 ∨ 0 ≤ k) :
    nodeWF { clicksChild := some (clicksNodeFor r k), actions := [a] } = true := by
  rw [nodeWF, Bool.and_eq_true]
  exact ⟨genNode_parses r k a hk, by simp⟩

theorem genNode_key (r k : Int) (a : Act) (hk : k = -1 ∨ 0 ≤ k) :
    nodeKey { clicksChild := some (clicksNodeFor r k), actions := [a] } = k := by
  rcases hk with rfl | hk
  · simp [nodeKey, clicksNodeFor]
  · have hneg : ¬k < 0 := not_lt.mpr hk
    simp [nodeKey, clicksNodeFor, hneg]

theorem genNode_tagged (r k : Int) (a : Act) (hk : k = -1 ∨ 0 ≤ k) :
    nodeTaggedCount { clicksChild := some (clicksNodeFor r k), actions := [a] } =
      if 0 ≤ k ∧ r = k then some k else none := by
  rcases hk with rfl | hk
  · simp [nodeTaggedCount, clicksNodeFor]
  · have hneg : ¬k < 0 := not_lt.mpr hk
    by_cases hr : r = k
    · simp [nodeTaggedCount, clicksNodeFor, hneg, hr, hk]
    · simp [nodeTaggedCount, clicksNodeFor, hneg, hr, hk]

theorem tagged_gen_mem (r : Int) (groups : List (Int × List Act))
    (hrange : ∀ p ∈ groups, p.1 = -1 ∨ 0 ≤ p.1) (n : Int)
    (hn : n ∈ (linkActionsNodesFor r groups).filterMap nodeTaggedCount) :
    n = r ∧ 0 ≤ n := by
  obtain ⟨an, han, htc⟩ := List.mem_filterMap.mp hn
  obtain ⟨ka, hka, a, ha, rfl⟩ := (mem_linkActionsNodesFor r groups an).mp han
  rw [genNode_tagged r ka.1 a (hrange ka hka)] at htc
  by_cases hc : 0 ≤ ka.1 ∧ r = ka.1
  · rw [if_pos hc, Option.some.injEq] at htc
    subst htc
    exact ⟨hc.2.symm, hc.1⟩
  · rw [if_neg hc] at htc
    cases htc

theorem tagged_gen_nonempty (r : Int) (groups : List (Int × List Act))
    (p : Int × List Act) (hp : p ∈ groups) (hk : p.1 = r) (hr : 0 ≤ r)
    (hne : p.2 ≠ []) :
    (linkActionsNodesFor r groups).filterMap nodeTaggedCount ≠ [] := by
  obtain ⟨a, rest, hacts⟩ := List.exists_cons_of_ne_nil hne
  have hmem : ({ clicksChild := some (clicksNodeFor r p.1), actions := [a] } :
      ActionsNode) ∈ linkActionsNodesFor r groups :=
    (mem_linkActionsNodesFor r groups _).mpr
      ⟨p, hp, a, by rw [hacts]; exact List.mem_cons_self _ _, rfl⟩
  have htc : nodeTaggedCount
      ({ clicksChild := some (clicksNodeFor r p.1), actions := [a] } :
        ActionsNode) = some r := by
    rw [genNode_tagged r p.1 a (Or.inr (hk ▸ hr))]
    rw [if_pos ⟨hk ▸ hr, hk.symm⟩, hk]
  exact List.ne_nil_of_mem (List.mem_filterMap.mpr ⟨_, hmem, htc⟩)

theorem nodeFold_actions (nodes : List ActionsNode) :
    ∀ s : W3DLink, (nodes.foldl processNodeP s).actions =
      nodes.foldl
        (fun acc an => an.actions.foldl (fun m a => addAction m (nodeKey an) a) acc)
        s.actions := by
  induction nodes with
  | nil => intro s; rfl
  | cons an rest ih =>
    intro s
    rw [List.foldl_cons, List.foldl_cons, ih (processNodeP s an)]
    rfl

theorem genNodes_inner_fold (r k : Int) (hk : k = -1 ∨ 0 ≤ k) (acts : List Act) :
    ∀ m : List (Int × List Act),
      (acts.map (fun a =>
        ({ clicksChild := some (clicksNodeFor r k), actions := [a] } :
          ActionsNode))).foldl
        (fun acc an => an.actions.foldl (fun m' a => addAction m' (nodeKey an) a) acc)
        m =
      acts.foldl (fun m' a => addAction m' k a) m := by
  induction acts with
  | nil => intro m; rfl
  | cons a rest ih =>
    intro m
    rw [List.map_cons, List.foldl_cons, List.foldl_cons, List.foldl_nil,
      genNode_key r k a hk, List.foldl_cons]
    exact ih (addAction m k a)

theorem genNodes_fold_actions (r : Int) (groups : List (Int × List Act))
    (hrange : ∀ p ∈ groups, p.1 = -1 ∨ 0 ≤ p.1) :
    ∀ m : List (Int × List Act),
      (linkActionsNodesFor r groups).foldl
        (fun acc an => an.actions.foldl (fun m' a => addAction m' (nodeKey an) a) acc)
        m =
      groups.foldl (fun acc g => g.2.foldl (fun m' a => addAction m' g.1 a) acc) m := by
  induction groups with
  | nil => intro m; rfl
  | cons g rest ih =>
    intro m
    have hflat : linkActionsNodesFor r (g :: rest) =
        g.2.map (fun a =>
          ({ clicksChild := some (clicksNodeFor r g.1), actions := [a] } :
            ActionsNode)) ++ linkActionsNodesFor r rest := by
      unfold linkActionsNodesFor
      rw [List.map_cons, List.flatten_cons]
    rw [hflat, List.foldl_append, List.foldl_cons,
      ih (fun p hp => hrange p (List.mem_cons_of_mem _ hp))]
    congr 1
    exact genNodes_inner_fold r g.1 (hrange g (List.mem_cons_self _ _)) g.2 m

/-- Serialize-after-deserialize preserves the click-action mapping and
the effective reset, for documents in the well-formed shape `toXML`
itself produces. -/
theorem link_roundtrip (root : LinkRoot) (ln : LinkNode)
    (hlink : root.link = some ln)
    (hwf : ∀ an ∈ ln.actionsNodes, nodeWF an = true) :
    ∃ l l', W3DLink.fromXML root = .ok l ∧
      W3DLink.fromXML (W3DLink.toXML l) = .ok l' ∧
      l'.actions = l.actions ∧ l'.reset = l.reset := by
  have hparse : ∀ an ∈ ln.actionsNodes, nodeParses an = true := by
    intro an ha
    have h := hwf an ha
    rw [nodeWF, Bool.and_eq_true] at h
    exact h.1
  have h1 : W3DLink.fromXML root = .ok (ln.actionsNodes.foldl processNodeP
      { enabled := ln.enabled
        remain_enabled := ln.remain_enabled
        enabled_color := ln.enabled_color.getD (0, 128, 255)
        selected_color := ln.selected_color.getD (255, 0, 0) }) := by
    unfold W3DLink.fromXML
    rw [hlink]
    exact foldlM_processActionsNode_eq ln.actionsNodes _ hparse
  set l := ln.actionsNodes.foldl processNodeP
      { enabled := ln.enabled
        remain_enabled := ln.remain_enabled
        enabled_color := ln.enabled_color.getD (0, 128, 255)
        selected_color := ln.selected_color.getD (255, 0, 0) } with hldef
  have hinv : LinkInv l :=
    foldP_inv ln.actionsNodes _ hwf
      ⟨List.nodup_nil, fun p hp => absurd hp (List.not_mem_nil p),
        fun p hp => absurd hp (List.not_mem_nil p), Or.inl rfl⟩
  have hrange : ∀ p ∈ l.actions, p.1 = -1 ∨ 0 ≤ p.1 := hinv.keys
  have hparse2 : ∀ an ∈ linkActionsNodesFor l.reset l.actions,
      nodeParses an = true := by
    intro an ha
    obtain ⟨ka, hka, a, hha, rfl⟩ := (mem_linkActionsNodesFor _ _ an).mp ha
    exact genNode_parses _ _ _ (hrange ka hka)
  have h2 : W3DLink.fromXML (W3DLink.toXML l) =
      .ok ((linkActionsNodesFor l.reset l.actions).foldl processNodeP
        { enabled := l.enabled
          remain_enabled := l.remain_enabled
          enabled_color := (some l.enabled_color).getD (0, 128, 255)
          selected_color := (some l.selected_color).getD (255, 0, 0) }) := by
    unfold W3DLink.fromXML
    rw [show (W3DLink.toXML l).link = some
      { enabled := l.enabled
        remain_enabled := l.remain_enabled
        enabled_color := some l.enabled_color
        selected_color := some l.selected_color
        actionsNodes := linkActionsNodesFor l.reset l.actions } from rfl]
    exact foldlM_processActionsNode_eq _ _ hparse2
  refine ⟨l, _, h1, h2, ?_, ?_⟩
  · rw [nodeFold_actions, genNodes_fold_actions l.reset l.actions hrange]
    have hrep := replayGroups l.actions []
      (by simpa [mapKeys] using hinv.nodup) hinv.vals
    simpa using hrep
  · obtain ⟨l'', hok'', hres''⟩ := fromXML_reset_eq (W3DLink.toXML l)
      { enabled := l.enabled
        remain_enabled := l.remain_enabled
        enabled_color := some l.enabled_color
        selected_color := some l.selected_color
        actionsNodes := linkActionsNodesFor l.reset l.actions } rfl hparse2
    have heq : ((linkActionsNodesFor l.reset l.actions).foldl processNodeP
        { enabled := l.enabled
          remain_enabled := l.remain_enabled
          enabled_color := (some l.enabled_color).getD (0, 128, 255)
          selected_color := (some l.selected_color).getD (255, 0, 0) }) = l'' :=
      Except.ok.inj (h2.symm.trans hok'')
    rw [← heq] at hres''
    rw [hres'']
    have htagdef : taggedCounts
        ({ enabled := l.enabled
           remain_enabled := l.remain_enabled
           enabled_color := some l.enabled_color
           selected_color := some l.selected_color
           actionsNodes := linkActionsNodesFor l.reset l.actions } : LinkNode) =
        (linkActionsNodesFor l.reset l.actions).filterMap nodeTaggedCount := rfl
    rw [htagdef]
    rcases hinv.resetOK with hres | ⟨h0, hmem⟩
    · have htag : (linkActionsNodesFor l.reset l.actions).filterMap
          nodeTaggedCount = [] := by
        rw [List.eq_nil_iff_forall_not_mem]
        intro n hn
        obtain ⟨hn1, hn2⟩ := tagged_gen_mem l.reset l.actions hrange n hn
        rw [hres] at hn1
        omega
      rw [htag, List.foldl_nil, hres]
    · obtain ⟨p, hp, hpk⟩ := List.mem_map.mp hmem
      have hne := hinv.vals p hp
      have htagne := tagged_gen_nonempty l.reset l.actions p hp hpk h0 hne
      have hnonneg : ∀ n ∈ (linkActionsNodesFor l.reset l.actions).filterMap
          nodeTaggedCount, 0 ≤ n :=
        fun n hn => (tagged_gen_mem l.reset l.actions hrange n hn).2
      rcases resetUpdate_fold_min _ hnonneg with ⟨hnil, _⟩ | ⟨hmem', _⟩
      · exact absurd hnil htagne
      · exact (tagged_gen_mem l.reset l.actions hrange _ hmem').1

theorem timedActions_foldlM_ok (tas : List TimedActionsNode) :
    ∀ tl : W3DTimeline, (∀ ta ∈ tas, taWF ta = true) →
      tas.foldlM processTimedActions tl =
        .ok { tl with actions := (timelinePairs tas).foldl insortPair tl.actions } := by
  induction tas with
  | nil => intro tl _; rfl
  | cons ta rest ih =>
    intro tl hall
    have hta := hall ta (List.mem_cons_self _ _)
    cases hts : ta.seconds_time with
    | none => exfalso; simp [taWF, hts] at hta
    | some v =>
      cases v with
      | none => exfalso; simp [taWF, hts] at hta
      | some t =>
        have ht : 0 ≤ t := by simpa [taWF, hts] using hta
        have hacts : (timelinePairs (ta :: rest)).foldl insortPair tl.actions =
            (timelinePairs rest).foldl insortPair
              (ta.children.foldl (fun acc a => insortPair acc (t, a)) tl.actions) := by
          rw [show timelinePairs (ta :: rest) =
            ta.children.map (fun a => (taTime ta, a)) ++ timelinePairs rest from rfl,
            List.foldl_append, List.foldl_map]
          simp only [show taTime ta = t from by simp [taTime, hts]]
        rw [List.foldlM_cons, processTimedActions_ok tl ta t hts ht, hacts]
        simpa using ih _ (fun x hx => hall x (List.mem_cons_of_mem _ hx))

theorem insortPair_append (acc : List (Time × Act)) (p : Time × Act)
    (h : ∀ q ∈ acc, q.1 ≤ p.1) : insortPair acc p = acc ++ [p] := by
  induction acc with
  | nil => rfl
  | cons q rest ih =>
    have hq : ¬p.1 < q.1 := not_lt.mpr (h q (List.mem_cons_self _ _))
    unfold insortPair
    rw [if_neg hq, ih (fun x hx => h x (List.mem_cons_of_mem _ hx))]
    rfl

theorem foldl_insort_of_sorted (seq : List (Time × Act)) :
    ∀ acc, timeSorted (acc ++ seq) → seq.foldl insortPair acc = acc ++ seq := by
  induction seq with
  | nil => intro acc _; simp
  | cons p rest ih =>
    intro acc h
    have hacc : ∀ q ∈ acc, q.1 ≤ p.1 := by
      obtain ⟨_, _, hcross⟩ := List.pairwise_append.mp h
      exact fun q hq => hcross q hq p (List.mem_cons_self _ _)
    rw [List.foldl_cons, insortPair_append acc p hacc,
      ih (acc ++ [p]) (by rw [List.append_assoc]; exact h), List.append_assoc]
    rfl

theorem foldl_insort_id (seq : List (Time × Act)) (h : timeSorted seq) :
    seq.foldl insortPair [] = seq := by
  simpa using foldl_insort_of_sorted seq [] (by simpa using h)

theorem flatten_map_singleton {α : Type} (l : List α) :
    (l.map (fun x => [x])).flatten = l := by
  induction l with
  | nil => rfl
  | cons a rest ih => simp [ih]

/-- Serialize-after-deserialize preserves the ordered `(time, action)`
collection of a timeline, for documents whose times parse and pass the
validator. -/
theorem timeline_roundtrip (td : TimelineNode) (nm : String)
    (hname : td.name = some nm)
    (hwf : ∀ ta ∈ td.timedActions, taWF ta = true) :
    ∃ tl td' tl', W3DTimeline.fromXML td = .ok tl ∧
      tl.toXML = .ok td' ∧ W3DTimeline.fromXML td' = .ok tl' ∧
      tl'.actions = tl.actions := by
  have h1 : W3DTimeline.fromXML td =
      .ok { name := some nm
            start_immediately := td.start_immediately.getD true
            actions := (timelinePairs td.timedActions).foldl insortPair [] } := by
    unfold W3DTimeline.fromXML
    rw [hname]
    exact timedActions_foldlM_ok td.timedActions _ hwf
  have hbuild := buildActions_invariants (timelinePairs td.timedActions) []
    List.Pairwise.nil
  have hsorted : timeSorted ((timelinePairs td.timedActions).foldl insortPair []) :=
    hbuild.1
  have hperm : ((timelinePairs td.timedActions).foldl insortPair []).Perm
      (timelinePairs td.timedActions) := by
    simpa using hbuild.2.1
  have htimes : ∀ p ∈ (timelinePairs td.timedActions).foldl insortPair [],
      0 ≤ p.1 := by
    intro p hp
    have hp' : p ∈ timelinePairs td.timedActions := hperm.mem_iff.mp hp
    obtain ⟨inner, hinner, hmem⟩ := List.mem_flatten.mp hp'
    obtain ⟨ta, hta, rfl⟩ := List.mem_map.mp hinner
    obtain ⟨a, _, rfl⟩ := List.mem_map.mp hmem
    have := hwf ta hta
    cases hts : ta.seconds_time with
    | none => exfalso; simp [taWF, hts] at this
    | some v =>
      cases v with
      | none => exfalso; simp [taWF, hts] at this
      | some t =>
        have h0 : 0 ≤ t := by simpa [taWF, hts] using this
        simpa [taTime, hts] using h0
  set A := (timelinePairs td.timedActions).foldl insortPair [] with hAdef
  have h2 : W3DTimeline.toXML
      { name := some nm
        start_immediately := td.start_immediately.getD true
        actions := A } =
      .ok { name := some nm
            start_immediately := some (td.start_immediately.getD true)
            timedActions := A.map (fun p =>
              { seconds_time := some (some p.1), children := [p.2] }) } := rfl
  have hwf' : ∀ ta ∈ A.map (fun p =>
      ({ seconds_time := some (some p.1), children := [p.2] } : TimedActionsNode)),
      taWF ta = true := by
    intro ta hta
    obtain ⟨p, hp, rfl⟩ := List.mem_map.mp hta
    simpa [taWF] using htimes p hp
  have h3 : W3DTimeline.fromXML
      { name := some nm
        start_immediately := some (td.start_immediately.getD true)
        timedActions := A.map (fun p =>
          { seconds_time := some (some p.1), children := [p.2] }) } =
      .ok { name := some nm
            start_immediately := td.start_immediately.getD true
            actions := (timelinePairs (A.map (fun p =>
              ({ seconds_time := some (some p.1), children := [p.2] } :
                TimedActionsNode)))).foldl insortPair [] } := by
    unfold W3DTimeline.fromXML
    exact timedActions_foldlM_ok _ _ hwf'
  have hpairs : timelinePairs (A.map (fun p =>
      ({ seconds_time := some (some p.1), children := [p.2] } :
        TimedActionsNode))) = A := by
    unfold timelinePairs
    rw [List.map_map]
    have hfun : ((fun ta : TimedActionsNode =>
        ta.children.map (fun a => (taTime ta, a))) ∘ (fun p : Time × Act =>
          ({ seconds_time := some (some p.1), children := [p.2] } :
            TimedActionsNode))) = fun p => [p] := by
      funext p
      simp [taTime]
    rw [hfun, flatten_map_singleton]
  refine ⟨_, _, _, h1, h2, h3, ?_⟩
  show (timelinePairs (A.map (fun p =>
      ({ seconds_time := some (some p.1), children := [p.2] } :
        TimedActionsNode)))).foldl insortPair [] = A
  rw [hpairs]
  exact foldl_insort_id A hsorted

/-- C6: serialization after deserialization is the identity on the
persisted content the spec names.  For every well-formed link document
(a `Link` child whose `Actions` nodes parse to non-negative click counts
and carry at least one action — the shape `toXML` produces), reparsing
the reserialized link preserves the click-count-to-action-list mapping
(any-count sentinel included) and the effective reset; for every
well-formed timeline document (named, with parsed validator-passing
times), reparsing the reserialized timeline preserves the time-ordered
action collection. -/
theorem claim_C6_roundtrip :
    (∀ (root : LinkRoot) (ln : LinkNode), root.link = some ln →
      (∀ an ∈ ln.actionsNodes, nodeWF an = true) →
      ∃ l l', W3DLink.fromXML root = .ok l ∧
        W3DLink.fromXML (W3DLink.toXML l) = .ok l' ∧
        l'.actions = l.actions ∧ l'.reset = l.reset) ∧
    (∀ (td : TimelineNode) (nm : String), td.name = some nm →
      (∀ ta ∈ td.timedActions, taWF ta = true) →
      ∃ tl td' tl', W3DTimeline.fromXML td = .ok tl ∧
        tl.toXML = .ok td' ∧ W3DTimeline.fromXML td' = .ok tl' ∧
        tl'.actions = tl.actions) :=
  ⟨link_roundtrip, timeline_roundtrip⟩

/-- Witness for C6 at concrete documents: the reset-tagged two-count link
document and a two-action timeline document. -/
theorem claim_C6_roundtrip_witness :
    (∃ l l', W3DLink.fromXML { link := some c3ExampleLink } = .ok l ∧
      W3DLink.fromXML (W3DLink.toXML l) = .ok l' ∧
      l'.actions = l.actions ∧ l'.reset = l.reset) ∧
    (∃ tl td' tl', W3DTimeline.fromXML c6TimelineDoc = .ok tl ∧
      tl.toXML = .ok td' ∧ W3DTimeline.fromXML td' = .ok tl' ∧
      tl'.actions = tl.actions) := by
  constructor
  · exact claim_C6_roundtrip.1 _ c3ExampleLink rfl (by decide)
  · exact claim_C6_roundtrip.2 c6TimelineDoc "tl" rfl (by decide)

end PyW3D
